import Mathlib

set_option maxHeartbeats 1000000

/-!
Verification of the metabolite-prediction comparison pipeline
(src/src/data/model_comp.py).  The Python functions are shallowly
embedded as Lean definitions over explicit list-based tables.  External
chemistry collaborators (structure parsing, identifier generation,
molecular property computation) are treated by the specification as
out-of-scope collaborators and are abstracted as function parameters.
-/

/-- Round-half-to-even of a rational to an integer, modelling the
Python builtin round applied to an exactly representable value. -/
def roundHalfEven (q : Rat) : Int :=
  let f : Int := q.floor
  let frac : Rat := q - (f : Rat)
  if frac < 1/2 then f
  else if 1/2 < frac then f + 1
  else if f % 2 = 0 then f else f + 1

/-- Rounding to three decimal places, modelling round(x, 3). -/
def round3 (q : Rat) : Rat := ((roundHalfEven (q * 1000) : Int) : Rat) / 1000

/-- A row of the aggregated comparison table consumed by the metric
functions of model_comp.py: the parent DTXSID, the Metabolite DTXSID
(the ambiguous-group identifier), the Markush flag, the Reported flag
and the integer source-flag columns, read by column name. -/
structure Row where
  dtxsid : String
  metabDTXSID : String
  markush : Bool
  reported : Nat
  flags : String → Nat

/-- The pair identifying an ambiguous (Markush) group in model_comp.py:
zip of the DTXSID and Metabolite DTXSID columns. -/
def pairOf (r : Row) : String × String := (r.dtxsid, r.metabDTXSID)

/-- The modelName argument of calcSensitivity and calcPrecision: a
single column name or a list of column names. -/
inductive ModelSelector where
  | single : String → ModelSelector
  | multi : List String → ModelSelector

/-- Column names consulted by a selector. -/
def selCols : ModelSelector → List String
  | .single n => [n]
  | .multi l => l

/-- Well-formed selector: the Python code raises an IndexError on an
empty list selector (it evaluates modelName[0]), so a well-formed
selector is a single name or a non-empty list of names. -/
@[reducible] def selWF : ModelSelector → Prop
  | .single _ => True
  | .multi l => l ≠ []

/-- The model filter built from the modelName argument (model_comp.py
lines 369 to 375 and 397 to 404; both metric functions contain the same
lines).  For a list, the Python update is
modelFilter = modelFilter | data[model] == 1, which by operator
precedence reads as (modelFilter | data[model]) == 1: a bitwise or of
the 0/1-coded boolean accumulator with the integer column, compared to
1.  An empty list raises and is modelled as none. -/
def modelFilterFn (sel : ModelSelector) : Option (Row → Bool) :=
  match sel with
  | .single n => some (fun r => r.flags n == 1)
  | .multi [] => none
  | .multi (n0 :: rest) =>
      some (fun r =>
        rest.foldl (fun b m => ((if b then 1 else 0) ||| r.flags m) == 1)
          (r.flags n0 == 1))

/-- Lean model of sumMarkParents (model_comp.py lines 340 to 357):
restrict to Markush rows, form the distinct
(DTXSID, Metabolite DTXSID) pairs, and add one for every pair having at
least one Markush row that passes the model filter.  The Python boolean
series combination parFilter and metabFilter and modelFilter aligns the
full-table filter onto the Markush subset, absent labels reading as
False, which is the per-row conjunction below. -/
def sumMarkParents (data : List Row) (modelFilter : Row → Bool) : Nat :=
  let markDF := data.filter (fun r => r.markush)
  let uniqueMatch := (markDF.map pairOf).dedup
  uniqueMatch.foldl
    (fun acc p =>
      let sumPredicted :=
        (markDF.filter (fun r =>
          (r.dtxsid == p.1) && (r.metabDTXSID == p.2) && modelFilter r)).length
      if sumPredicted > 0 then acc + 1 else acc) 0

/-- Lean model of calcSensitivity (model_comp.py lines 359 to 388).
A zero denominator raises ZeroDivisionError in Python and is modelled
as none, as is the empty list selector. -/
def calcSensitivity (data : List Row) (sel : ModelSelector) : Option Rat :=
  (modelFilterFn sel).bind (fun mf =>
    let trueNonMark :=
      (data.filter (fun r => mf r && (r.reported == 1) && !r.markush)).length
    let trueMarkParent := sumMarkParents data mf
    let reportNonMark :=
      (data.filter (fun r => (r.reported == 1) && !r.markush)).length
    let reportMarkParent :=
      ((data.filter (fun r => (r.reported == 1) && r.markush)).map pairOf).dedup.length
    if reportNonMark + reportMarkParent = 0 then none
    else some (round3 (((trueNonMark + trueMarkParent : Nat) : Rat) /
      ((reportNonMark + reportMarkParent : Nat) : Rat))))

/-- Lean model of calcPrecision (model_comp.py lines 390 to 418).  The
elif guard allPred == 0 & truePred == 0 is the Python chained
comparison allPred == (0 & truePred) == 0.  When neither branch is
taken the local Python variable Precision would be unbound; that path
is modelled as none. -/
def calcPrecision (data : List Row) (sel : ModelSelector) : Option Rat :=
  (modelFilterFn sel).bind (fun mf =>
    let truePred := (data.filter (fun r => mf r && (r.reported == 1))).length
    let allPred := (data.filter mf).length
    if allPred > 0 then some (round3 ((truePred : Rat) / (allPred : Rat)))
    else if (allPred == (0 &&& truePred)) && ((0 &&& truePred) == 0) then
      some 0
    else none)

/-- Spec-side filter (spec section 4.4): a list selector is the logical
OR of the named source flags. -/
def specFilter (sel : ModelSelector) (r : Row) : Bool :=
  match sel with
  | .single n => r.flags n == 1
  | .multi l => l.any (fun n => r.flags n == 1)

/-- Spec-side count of non-ambiguous true positives: rows with the
modelSelector flag, the Reported flag and not Markush. -/
def specNonAmbigTP (data : List Row) (sel : ModelSelector) : Nat :=
  (data.filter (fun r => specFilter sel r && (r.reported == 1) && !r.markush)).length

/-- Spec-side count of ambiguous true positives: one per unique
(ParentID, MetaboliteGroupID) pair among Markush rows such that some
row with that pair carries the modelSelector flag. -/
def specAmbigTP (data : List Row) (sel : ModelSelector) : Nat :=
  (((data.filter (fun r => r.markush)).map pairOf).dedup).countP
    (fun p => (data.filter (fun r => r.markush)).any
      (fun r => pairOf r == p && specFilter sel r))

/-- Spec-side count of reported non-ambiguous rows. -/
def specReportedNonAmbig (data : List Row) : Nat :=
  (data.filter (fun r => (r.reported == 1) && !r.markush)).length

/-- Spec-side count of unique reported Markush pairs. -/
def specReportedAmbig (data : List Row) : Nat :=
  ((data.filter (fun r => (r.reported == 1) && r.markush)).map pairOf).dedup.length

/-- Concrete table for the sensitivity scenario of claim C1: two
non-ambiguous reported true positives, one non-ambiguous reported
false negative, and one ambiguous group of three reported Markush rows
sharing the pair (P2, G1), exactly one of which carries the model
flag M. -/
def c1Table : List Row :=
  [ ⟨"P1", "M1", false, 1, fun c => if c = "M" then 1 else 0⟩,
    ⟨"P1", "M2", false, 1, fun c => if c = "M" then 1 else 0⟩,
    ⟨"P1", "M3", false, 1, fun _ => 0⟩,
    ⟨"P2", "G1", true, 1, fun c => if c = "M" then 1 else 0⟩,
    ⟨"P2", "G1", true, 1, fun _ => 0⟩,
    ⟨"P2", "G1", true, 1, fun _ => 0⟩ ]

/-- Table with one reported row and no model flag set, for claims C3
and C10. -/
def c3Table : List Row := [⟨"P1", "M1", false, 1, fun _ => 0⟩]

/-- Row with flag only in column B, for the claim C9 witness. -/
def c9Row : Row := ⟨"P", "M", false, 1, fun c => if c = "B" then 1 else 0⟩

/-- A row of an adapter output or merged table: the two join-key
columns (DTXSID, Metabolite_INCHIKEY) and the remaining columns read
by name; none models a pandas NaN. -/
structure SRow where
  dtxsid : String
  inchikey : String
  vals : String → Option Nat

/-- The join key of a row. -/
def SRow.key (r : SRow) : String × String := (r.dtxsid, r.inchikey)

/-- A table: the list of non-key column names present, and the rows.
Only the columns listed in cols are meaningful for a row. -/
structure STable where
  cols : List String
  rows : List SRow

/-- The merged row for two matching rows: columns of the left table
read from the left row, remaining columns from the right row. -/
def combineRow (acols : List String) (ra rb : SRow) : SRow :=
  { dtxsid := ra.dtxsid, inchikey := ra.inchikey,
    vals := fun c => if c ∈ acols then ra.vals c else rb.vals c }

/-- An unmatched left row extended with missing right columns. -/
def extendLeft (acols : List String) (ra : SRow) : SRow :=
  { ra with vals := fun c => if c ∈ acols then ra.vals c else none }

/-- An unmatched right row extended with missing left columns. -/
def extendRight (acols : List String) (rb : SRow) : SRow :=
  { rb with vals := fun c => if c ∈ acols then none else rb.vals c }

/-- Outer merge on the join keys, modelling
pd.merge(A, B, on = arg_on, how = outer): every left row is paired
with each key-matching right row, or kept with missing right columns;
right rows without a key match are appended with missing left
columns.  Claims about the merge are stated up to row order. -/
def mergeOuter (A B : STable) : STable :=
  { cols := A.cols ++ B.cols,
    rows :=
      (A.rows.flatMap (fun ra =>
        if (B.rows.filter (fun rb => decide (rb.key = ra.key))).isEmpty
        then [extendLeft A.cols ra]
        else (B.rows.filter (fun rb => decide (rb.key = ra.key))).map
          (fun rb => combineRow A.cols ra rb)))
      ++ ((B.rows.filter (fun rb =>
            !(A.rows.any (fun ra => decide (ra.key = rb.key))))).map
          (extendRight A.cols)) }

/-- Replacing missing values by 0 in one row, modelling
replace(np.NaN, 0). -/
def fillRow (r : SRow) : SRow :=
  { r with vals := fun c => some ((r.vals c).getD 0) }

/-- Replacing missing values by 0 in a whole table. -/
def fillZero (t : STable) : STable := { t with rows := t.rows.map fillRow }

/-- Dropping the excluded Clean_SMILES column when present, modelling
the try drop except of aggregate_DFs. -/
def dropExcluded (t : STable) : STable :=
  { t with cols := t.cols.filter (fun c => c ≠ "Clean_SMILES") }

/-- The observable content of a row over a given column list: join key
and the values of the listed columns. -/
def rowRepr (cols : List String) (r : SRow) : (String × String) × List (Option Nat) :=
  (r.key, cols.map r.vals)

/-- Removal of exact duplicate rows keeping first occurrences,
modelling drop_duplicates; seen accumulates representations already
kept. -/
def dedupRowsAux (cols : List String)
    (seen : List ((String × String) × List (Option Nat))) :
    List SRow → List SRow
  | [] => []
  | r :: rs =>
    if rowRepr cols r ∈ seen then dedupRowsAux cols seen rs
    else r :: dedupRowsAux cols (rowRepr cols r :: seen) rs

/-- Duplicate-row removal for a table. -/
def dedupTable (t : STable) : STable :=
  { t with rows := dedupRowsAux t.cols [] t.rows }

/-- Lean model of aggregate_DFs (model_comp.py lines 256 to 280):
fewer than two tables return None (modelled none); otherwise the
Clean_SMILES column is dropped from each input, the inputs are folded
by outer merge on the join keys with missing values replaced by 0
after each merge, and exact duplicate rows are dropped at the end. -/
def aggregate_DFs (l : List STable) : Option STable :=
  match l with
  | [] => none
  | [_] => none
  | t0 :: rest =>
      some (dedupTable (rest.foldl
        (fun acc t => fillZero (mergeOuter acc (dropExcluded t)))
        (dropExcluded t0)))

/-- Lean model of aggregate_DFs_extended (model_comp.py lines 283 to
312): the same guard and merge fold, without dropping Clean_SMILES
columns; the consensus-structure selection, duplicate dropping and
formula and mass computation of lines 292 to 311 depend on the
external chemistry library and are abstracted by the post
parameter. -/
def aggregate_DFs_extended (post : STable → STable) (l : List STable) : Option STable :=
  match l with
  | [] => none
  | [_] => none
  | t0 :: rest =>
      some (post (rest.foldl (fun acc t => fillZero (mergeOuter acc t)) t0))

/-- The observable content of a table: the representations of its rows
over its column list. -/
def tableReprs (t : STable) : List ((String × String) × List (Option Nat)) :=
  t.rows.map (rowRepr t.cols)

/-- Value-list counterpart of fillRow. -/
def fillVals (l : List (Option Nat)) : List (Option Nat) :=
  l.map (fun v => some (v.getD 0))

/-- Membership description of the rows produced by an outer merge, in
terms of the row representations of the inputs: a matched pair, an
unmatched left row padded with missing right columns, or an unmatched
right row padded with missing left columns. -/
def mergedMem (RA RB : List ((String × String) × List (Option Nat)))
    (la lb : Nat) (x : (String × String) × List (Option Nat)) : Prop :=
  (∃ a ∈ RA, ∃ b ∈ RB, b.1 = a.1 ∧ x = (a.1, a.2 ++ b.2)) ∨
  (∃ a ∈ RA, (∀ b ∈ RB, b.1 ≠ a.1) ∧ x = (a.1, a.2 ++ List.replicate lb none)) ∨
  (∃ b ∈ RB, (∀ a ∈ RA, a.1 ≠ b.1) ∧ x = (b.1, List.replicate la none ++ b.2))

/-- A one-row adapter-style table with a ToolBox flag column. -/
def tA : STable :=
  { cols := ["ToolBox"],
    rows := [⟨"P1", "K1", fun c => if c = "ToolBox" then some 1 else none⟩] }

/-- A one-row adapter-style table with a Meteor flag column and a key
distinct from tA. -/
def tB : STable :=
  { cols := ["Meteor"],
    rows := [⟨"P2", "K2", fun c => if c = "Meteor" then some 1 else none⟩] }

/-- A one-row adapter-style table with a BioTransformer flag column. -/
def tC : STable :=
  { cols := ["BioTransformer"],
    rows := [⟨"P3", "K3", fun c => if c = "BioTransformer" then some 1 else none⟩] }

/-- A raw TIMES export row after CSV reading: the parent-name column
renamed DTXSID (none models NaN) and the Smiles column. -/
structure TRow where
  dtxsid : Option String
  smiles : String

/-- An output row of the TIMES adapter relevant to claim C7: the
forward-filled DTXSID, the metabolite identifier and the SMILES. -/
structure TOut where
  dtxsid : Option String
  inchikey : String
  smiles : String
deriving DecidableEq

/-- Forward fill of the DTXSID column, modelling the pandas ffill: an
explicit fold carrying the last seen value. -/
def ffillDTXSID {β : Type} (last : Option String) :
    List (Option String × β) → List (Option String × β)
  | [] => []
  | (some v, b) :: rest => (some v, b) :: ffillDTXSID (some v) rest
  | (none, b) :: rest => (last, b) :: ffillDTXSID last rest

/-- Lean model of the row transformation of TIMES_cleanup
(model_comp.py lines 106 to 113) on the data rows: replace a single
space DTXSID by missing, convert the SMILES of the rows with missing
DTXSID (the metabolite rows) through the external identifier function,
forward-fill the DTXSID, keep only rows with an identifier, and drop
exact duplicates.  inchiOf abstracts SMILES_to_InchiKey; none models a
missing identifier. -/
def TIMES_ffill (inchiOf : String → Option String) (rows : List TRow) : List TOut :=
  let step1 := rows.map (fun r =>
    if r.dtxsid = some " " then TRow.mk none r.smiles else r)
  let step2 : List (Option String × Option String × String) :=
    step1.map (fun r =>
      (r.dtxsid, if r.dtxsid.isNone then inchiOf r.smiles else none, r.smiles))
  let step3 := ffillDTXSID none step2
  let step4 := step3.filterMap (fun z =>
    z.2.1.map (fun k => TOut.mk z.1 k z.2.2))
  step4.dedup

/-- Lean model of TIMES_cleanup (model_comp.py lines 99 to 116) after
CSV reading: the format trim df[header:-2] drops the first header rows
and the two trailing summary rows, and the remaining data rows are
processed as in TIMES_ffill; the Formula, mass and clean-SMILES
columns come from external chemistry calls and are not modelled. -/
def TIMES_cleanup (inchiOf : String → Option String) (rows : List TRow)
    (header : Nat) : List TOut :=
  TIMES_ffill inchiOf ((rows.drop header).take ((rows.drop header).length - 2))

/-- A cell of the extended aggregation output: a string (formula or
sentinel) or a numeric mass value, modelling the mixed-type pandas
column. -/
inductive Cell where
  | str : String → Cell
  | num : Rat → Cell
deriving DecidableEq

/-- Insertion into an index-sorted association list. -/
def insertByIdx (x : Nat × Cell) : List (Nat × Cell) → List (Nat × Cell)
  | [] => [x]
  | y :: ys => if x.1 ≤ y.1 then x :: y :: ys else y :: insertByIdx x ys

/-- Sorting an association list by index, modelling sort_index. -/
def sortByIdx : List (Nat × Cell) → List (Nat × Cell)
  | [] => []
  | x :: xs => insertByIdx x (sortByIdx xs)

/-- Lean model of the derived-property computation of
aggregate_DFs_extended (model_comp.py lines 300 to 310): parse every
consensus SMILES, build the sentinel series over the unparseable rows
and the computed series over the parseable rows, concatenate each pair
and sort_index back into row order, and return the two columns, [M+H]
then Formula.  parseMol, exactWt and calcFormula abstract the external
chemistry functions and mH the proton mass added to each mass. -/
def extendedProperties {μ : Type} (parseMol : String → Option μ)
    (exactWt : μ → Rat) (calcFormula : μ → String) (mH : Rat)
    (smilesList : List String) : List Cell × List Cell :=
  let molList := (List.enumFrom 0 smilesList).map (fun p => (p.1, parseMol p.2))
  let nullValues := molList.filterMap (fun p =>
    match p.2 with
    | none => some (p.1, Cell.str "Incompatible SMILES")
    | some _ => none)
  let mhList := molList.filterMap (fun p =>
    p.2.map (fun m => (p.1, Cell.num (exactWt m + mH))))
  let mhSeries := sortByIdx (mhList ++ nullValues)
  let formulaList := molList.filterMap (fun p =>
    p.2.map (fun m => (p.1, Cell.str (calcFormula m))))
  let formulaSeries := sortByIdx (formulaList ++ nullValues)
  (mhSeries.map Prod.snd, formulaSeries.map Prod.snd)

/-- The per-row cell of the extended aggregation: the sentinel string
for an unparseable structure, the computed cell otherwise. -/
def rowCell {μ : Type} (f : μ → Cell) (o : Option μ) : Cell :=
  match o with
  | none => Cell.str "Incompatible SMILES"
  | some m => f m

/-- One step of the bitwise-or accumulation agrees with boolean or when
the flag value is 0 or 1. -/
lemma lor_step (b : Bool) (v : Nat) (hv : v ≤ 1) :
    (((if b then 1 else 0) ||| v) == 1) = (b || (v == 1)) := by
  rcases Nat.le_one_iff_eq_zero_or_eq_one.mp hv with rfl | rfl <;> cases b <;> decide

/-- The folded bitwise accumulation is the boolean any over the list,
for 0/1 flag values. -/
lemma foldl_or_any (rest : List String) (r : Row) (b : Bool)
    (h : ∀ n ∈ rest, r.flags n ≤ 1) :
    rest.foldl (fun c m => ((if c then 1 else 0) ||| r.flags m) == 1) b
      = (b || rest.any (fun n => r.flags n == 1)) := by
  induction rest generalizing b with
  | nil => simp
  | cons m t ih =>
      have hm : r.flags m ≤ 1 := h m (by simp)
      have ht : ∀ n ∈ t, r.flags n ≤ 1 := fun n hn => h n (by simp [hn])
      simp only [List.foldl_cons, List.any_cons]
      rw [lor_step b (r.flags m) hm, ih _ ht, Bool.or_assoc]

/-- For a well-formed selector the code-side filter exists and agrees
with the spec-side OR filter on rows whose consulted flags are 0/1. -/
lemma modelFilterFn_eq_spec (sel : ModelSelector) (hsel : selWF sel) :
    ∃ mf, modelFilterFn sel = some mf ∧
      ∀ r : Row, (∀ n ∈ selCols sel, r.flags n ≤ 1) → mf r = specFilter sel r := by
  cases sel with
  | single n => exact ⟨_, rfl, fun r _ => rfl⟩
  | multi l =>
      cases l with
      | nil => exact absurd rfl hsel
      | cons n0 t =>
          refine ⟨_, rfl, fun r h => ?_⟩
          have ht : ∀ n ∈ t, r.flags n ≤ 1 := fun n hn => h n (by simp [selCols, hn])
          simp only [specFilter, List.any_cons]
          exact foldl_or_any t r _ ht

/-- A counting fold with a positivity guard is a countP. -/
lemma foldl_count_gt {α : Type} (f : α → Nat) (l : List α) :
    l.foldl (fun acc x => if f x > 0 then acc + 1 else acc) 0
      = l.countP (fun x => decide (f x > 0)) := by
  suffices h : ∀ n, l.foldl (fun acc x => if f x > 0 then acc + 1 else acc) n
      = n + l.countP (fun x => decide (f x > 0)) by simpa using h 0
  induction l with
  | nil => intro n; simp
  | cons a t ih =>
      intro n
      rw [List.foldl_cons, ih, List.countP_cons]
      by_cases h : f a > 0
      · simp [h]; omega
      · simp [h]

/-- A filtered list is nonempty exactly when some element passes. -/
lemma filter_pos_any {α : Type} (l : List α) (p : α → Bool) :
    (decide ((l.filter p).length > 0)) = l.any p := by
  rcases h : l.any p with _ | _
  · have hnil : l.filter p = [] := by
      refine List.filter_eq_nil_iff.mpr (fun a ha hpa => ?_)
      have htrue : l.any p = true := List.any_eq_true.mpr ⟨a, ha, hpa⟩
      rw [h] at htrue
      exact Bool.false_ne_true htrue
    simp [hnil]
  · rcases List.any_eq_true.mp h with ⟨a, ha, hpa⟩
    have hmem : a ∈ l.filter p := List.mem_filter.mpr ⟨ha, hpa⟩
    have hlen : 0 < (l.filter p).length := List.length_pos.mpr (List.ne_nil_of_mem hmem)
    simp [hlen]

/-- sumMarkParents counts the distinct Markush pairs having at least
one Markush row passing the filter. -/
lemma sumMarkParents_countP (data : List Row) (mf : Row → Bool) :
    sumMarkParents data mf =
      (((data.filter (fun r => r.markush)).map pairOf).dedup).countP
        (fun p => (data.filter (fun r => r.markush)).any
          (fun r => (r.dtxsid == p.1) && (r.metabDTXSID == p.2) && mf r)) := by
  simp only [sumMarkParents]
  rw [foldl_count_gt]
  apply List.countP_congr
  intro p _
  have heq := filter_pos_any (data.filter (fun r => r.markush))
    (fun r => (r.dtxsid == p.1) && (r.metabDTXSID == p.2) && mf r)
  rw [← heq]

/-- Two boolean lists agree elementwise, so any agrees. -/
lemma any_congr {α : Type} (l : List α) (p q : α → Bool)
    (h : ∀ a ∈ l, p a = q a) : l.any p = l.any q := by
  induction l with
  | nil => rfl
  | cons a t ih =>
      simp only [List.any_cons, h a (by simp)]
      rw [ih (fun x hx => h x (by simp [hx]))]

/-- Componentwise reading of the pair equality test. -/
lemma pair_beq (r : Row) (p : String × String) :
    (pairOf r == p) = ((r.dtxsid == p.1) && (r.metabDTXSID == p.2)) := by
  cases p
  rfl

/-- Evaluation of the rounding at the scenario ratio 3/4. -/
lemma round3_34 : round3 (((3 : Nat) : Rat) / ((4 : Nat) : Rat)) = 3 / 4 := by
  have h1 : ((((3 : Nat) : Rat) / ((4 : Nat) : Rat)) * 1000) = (750 : Rat) := by
    norm_num
  rw [round3, roundHalfEven, h1, Rat.floor_def']
  norm_num

/-- Claim C1: on the scenario table calcSensitivity returns
round((2 + 1)/(3 + 1), 3) = 0.75, and in general, for a well-formed
selector, 0/1 flags on the consulted columns and a nonzero reported
denominator, calcSensitivity returns
round((nonAmbigTP + ambigTP) / (reportedNonAmbig + reportedAmbig), 3)
with the four counts as defined by the specification. -/
theorem calcSensitivity_spec :
    calcSensitivity c1Table (ModelSelector.single "M") = some (3/4 : Rat) ∧
    ∀ (data : List Row) (sel : ModelSelector), selWF sel →
      (∀ r ∈ data, ∀ n ∈ selCols sel, r.flags n ≤ 1) →
      specReportedNonAmbig data + specReportedAmbig data ≠ 0 →
      calcSensitivity data sel =
        some (round3 (((specNonAmbigTP data sel + specAmbigTP data sel : Nat) : Rat) /
          ((specReportedNonAmbig data + specReportedAmbig data : Nat) : Rat))) := by
  constructor
  · have hr : calcSensitivity c1Table (ModelSelector.single "M")
        = some (round3 (((3 : Nat) : Rat) / ((4 : Nat) : Rat))) := rfl
    rw [hr, round3_34]
  · intro data sel hw h01 hden
    obtain ⟨mf, hmf, hag⟩ := modelFilterFn_eq_spec sel hw
    have hagree : ∀ r ∈ data, mf r = specFilter sel r := fun r hr => hag r (h01 r hr)
    have h1 : data.filter (fun r => mf r && (r.reported == 1) && !r.markush)
        = data.filter (fun r => specFilter sel r && (r.reported == 1) && !r.markush) :=
      List.filter_congr (fun r hr => by
        show (mf r && (r.reported == 1) && !r.markush)
          = (specFilter sel r && (r.reported == 1) && !r.markush)
        rw [hagree r hr])
    have h2 : sumMarkParents data mf = specAmbigTP data sel := by
      rw [sumMarkParents_countP]
      unfold specAmbigTP
      apply List.countP_congr
      intro p _
      have h := any_congr (data.filter (fun r => r.markush))
        (fun r => (r.dtxsid == p.1) && (r.metabDTXSID == p.2) && mf r)
        (fun r => (pairOf r == p) && specFilter sel r)
        (fun r hr => by
          show ((r.dtxsid == p.1) && (r.metabDTXSID == p.2) && mf r)
            = ((pairOf r == p) && specFilter sel r)
          rw [pair_beq r p, hagree r (List.mem_filter.mp hr).1])
      rw [h]
    simp only [calcSensitivity, hmf, Option.some_bind]
    rw [h1, h2]
    have hden2 : ¬((data.filter (fun r => (r.reported == 1) && !r.markush)).length +
        ((data.filter (fun r => (r.reported == 1) && r.markush)).map pairOf).dedup.length
          = 0) := hden
    rw [if_neg hden2]
    rfl

/-- Witness for claim C1 at the scenario table with the single
selector M. -/
theorem calcSensitivity_spec_witness :
    calcSensitivity c1Table (ModelSelector.single "M") =
      some (round3 (((specNonAmbigTP c1Table (ModelSelector.single "M") +
        specAmbigTP c1Table (ModelSelector.single "M") : Nat) : Rat) /
        ((specReportedNonAmbig c1Table + specReportedAmbig c1Table : Nat) : Rat))) :=
  calcSensitivity_spec.2 c1Table (ModelSelector.single "M") trivial
    (by decide) (by decide)

/-- Claim C2: in the ambiguous-group accounting, each distinct
(ParentID, Metabolite DTXSID) pair among Markush rows is counted
exactly once, and it is counted exactly when some Markush row carrying
that pair passes the model filter; the Reported flag plays no role. -/
theorem sumMarkParents_unique_pairs (data : List Row) (mf : Row → Bool) :
    sumMarkParents data mf =
      (((data.filter (fun r => r.markush)).map pairOf).dedup).countP
        (fun p => (data.filter (fun r => r.markush)).any
          (fun r => (pairOf r == p) && mf r)) := by
  rw [sumMarkParents_countP]
  apply List.countP_congr
  intro p _
  have h := any_congr (data.filter (fun r => r.markush))
    (fun r => (r.dtxsid == p.1) && (r.metabDTXSID == p.2) && mf r)
    (fun r => (pairOf r == p) && mf r)
    (fun r _ => by
      show ((r.dtxsid == p.1) && (r.metabDTXSID == p.2) && mf r)
        = ((pairOf r == p) && mf r)
      rw [pair_beq r p])
  rw [h]

/-- Claim C3: given the model filter of the selector, calcPrecision
returns exactly 0 when no row passes it, whatever the Reported values,
and otherwise returns round(truePositive/allPredicted, 3), where
truePositive counts rows passing the filter with the Reported flag and
allPredicted counts rows passing the filter. -/
theorem calcPrecision_cases (data : List Row) (sel : ModelSelector) (mf : Row → Bool)
    (hmf : modelFilterFn sel = some mf) :
    ((data.filter mf).length = 0 → calcPrecision data sel = some 0) ∧
    ((data.filter mf).length > 0 → calcPrecision data sel =
      some (round3 (((data.filter (fun r => mf r && (r.reported == 1))).length : Rat) /
        ((data.filter mf).length : Rat)))) := by
  simp only [calcPrecision, hmf, Option.some_bind]
  constructor
  · intro h0
    rw [h0]
    simp
  · intro hpos
    rw [if_pos hpos]

/-- Witness for claim C3: a table with a reported row but no flagged
row yields precision 0. -/
theorem calcPrecision_cases_witness :
    (c3Table.filter (fun r => r.flags "M" == 1)).length = 0 ∧
    calcPrecision c3Table (ModelSelector.single "M") = some 0 :=
  ⟨by decide, (calcPrecision_cases c3Table (ModelSelector.single "M")
    (fun r => r.flags "M" == 1) rfl).1 (by decide)⟩

/-- Claim C9: the single-column filter tests a flag against 1, and for
a non-empty list selector over 0/1 flags the computed filter marks a
row exactly when some named column has flag 1, that is, it is the
union of the single-column selectors. -/
theorem modelFilter_list_or (r : Row) (names : List String) (hne : names ≠ [])
    (h01 : ∀ n ∈ names, r.flags n ≤ 1) :
    (∀ n : String, modelFilterFn (ModelSelector.single n)
        = some (fun row => row.flags n == 1)) ∧
    ∃ mf, modelFilterFn (ModelSelector.multi names) = some mf ∧
      (mf r = true ↔ ∃ n ∈ names, r.flags n = 1) := by
  refine ⟨fun n => rfl, ?_⟩
  obtain ⟨mf, hmf, hag⟩ := modelFilterFn_eq_spec (ModelSelector.multi names) hne
  refine ⟨mf, hmf, ?_⟩
  rw [hag r h01]
  simp [specFilter]

/-- Witness for claim C9 with the two-column selector [A, B]. -/
theorem modelFilter_list_or_witness :
    ∃ mf, modelFilterFn (ModelSelector.multi ["A", "B"]) = some mf ∧
      (mf c9Row = true ↔ ∃ n ∈ ["A", "B"], c9Row.flags n = 1) :=
  (modelFilter_list_or c9Row ["A", "B"] (by decide) (by decide)).2

/-- Claim C10: for a single-column selector or a non-empty list
selector, calcPrecision always reaches one of its two assignment
branches and returns a value; the branch structure is exhaustive. -/
theorem calcPrecision_total (data : List Row) (sel : ModelSelector) (hsel : selWF sel) :
    (calcPrecision data sel).isSome = true := by
  obtain ⟨mf, hmf, -⟩ := modelFilterFn_eq_spec sel hsel
  simp only [calcPrecision, hmf, Option.some_bind]
  by_cases h : (data.filter mf).length > 0
  · rw [if_pos h]
    rfl
  · rw [if_neg h]
    have h0 : (data.filter mf).length = 0 := Nat.eq_zero_of_not_pos h
    rw [h0]
    simp

/-- Witness for claim C10 at a concrete table and selector. -/
theorem calcPrecision_total_witness :
    (calcPrecision c3Table (ModelSelector.single "M")).isSome = true :=
  calcPrecision_total c3Table (ModelSelector.single "M") trivial

/-- Claim C5: the Aggregator given fewer than two input tables returns
no result rather than raising: both aggregate_DFs and
aggregate_DFs_extended return before doing any work. -/
theorem aggregate_insufficient_inputs (l : List STable) (post : STable → STable)
    (h : l.length < 2) :
    aggregate_DFs l = none ∧ aggregate_DFs_extended post l = none := by
  match l with
  | [] => exact ⟨rfl, rfl⟩
  | [t] => exact ⟨rfl, rfl⟩
  | t0 :: t1 :: rest => simp only [List.length_cons] at h; omega

/-- Witness for claim C5 on a singleton input list. -/
theorem aggregate_insufficient_inputs_witness :
    aggregate_DFs [tA] = none ∧ aggregate_DFs_extended id [tA] = none :=
  aggregate_insufficient_inputs [tA] id (by decide)

/-- A flatMap whose function yields singletons is a map. -/
lemma flatMap_singleton_of {α β : Type} (l : List α) (f : α → List β) (g : α → β)
    (h : ∀ a ∈ l, f a = [g a]) : l.flatMap f = l.map g := by
  induction l with
  | nil => rfl
  | cons a t ih =>
      rw [List.flatMap_cons, h a (by simp), ih (fun x hx => h x (by simp [hx]))]
      rfl

/-- Duplicate removal is the identity on a list of rows with distinct
representations none of which was seen before. -/
lemma dedupRowsAux_eq_self (cols : List String)
    (seen : List ((String × String) × List (Option Nat))) (rows : List SRow)
    (h1 : (rows.map (rowRepr cols)).Nodup)
    (h2 : ∀ r ∈ rows, rowRepr cols r ∉ seen) :
    dedupRowsAux cols seen rows = rows := by
  induction rows generalizing seen with
  | nil => rfl
  | cons r rs ih =>
      rw [dedupRowsAux, if_neg (h2 r (by simp))]
      congr 1
      refine ih _ ((List.nodup_cons.mp h1).2) (fun x hx hmem => ?_)
      rcases List.mem_cons.mp hmem with he | hs
      · exact (List.nodup_cons.mp h1).1 (he ▸ List.mem_map_of_mem (rowRepr cols) hx)
      · exact h2 x (by simp [hx]) hs

/-- Claim C4: aggregating two tables with disjoint key sets, distinct
keys inside each table and disjoint column sets yields one row per
input row, every key appearing exactly once, and on every row the
columns of the non-contributing input all equal 0 rather than
missing. -/
theorem aggregate_disjoint_union (A B : STable)
    (hkA : (A.rows.map SRow.key).Nodup)
    (hkB : (B.rows.map SRow.key).Nodup)
    (hdk : ∀ ra ∈ A.rows, ∀ rb ∈ B.rows, ra.key ≠ rb.key)
    (hdc : ∀ c ∈ A.cols, c ∉ B.cols) :
    ∃ T, aggregate_DFs [A, B] = some T ∧
      T.rows.length = A.rows.length + B.rows.length ∧
      T.rows.map SRow.key = A.rows.map SRow.key ++ B.rows.map SRow.key ∧
      (T.rows.map SRow.key).Nodup ∧
      ∀ r ∈ T.rows,
        (r.key ∈ A.rows.map SRow.key ∧
          ∀ c ∈ (dropExcluded B).cols, r.vals c = some 0) ∨
        (r.key ∈ B.rows.map SRow.key ∧
          ∀ c ∈ (dropExcluded A).cols, r.vals c = some 0) := by
  have hacols : ∀ c ∈ (dropExcluded A).cols, c ∈ A.cols :=
    fun c hc => (List.mem_filter.mp hc).1
  have hbcols : ∀ c ∈ (dropExcluded B).cols, c ∈ B.cols :=
    fun c hc => (List.mem_filter.mp hc).1
  have hrowsA : (dropExcluded A).rows = A.rows := rfl
  have hrowsB : (dropExcluded B).rows = B.rows := rfl
  -- the merged row list under disjoint keys
  have hflat : (mergeOuter (dropExcluded A) (dropExcluded B)).rows
      = A.rows.map (extendLeft (dropExcluded A).cols)
        ++ B.rows.map (extendRight (dropExcluded A).cols) := by
    have e0 : (mergeOuter (dropExcluded A) (dropExcluded B)).rows
        = A.rows.flatMap (fun ra =>
            if (B.rows.filter (fun rb => decide (rb.key = ra.key))).isEmpty
            then [extendLeft (dropExcluded A).cols ra]
            else (B.rows.filter (fun rb => decide (rb.key = ra.key))).map
              (fun rb => combineRow (dropExcluded A).cols ra rb))
          ++ (B.rows.filter (fun rb =>
              !(A.rows.any (fun ra => decide (ra.key = rb.key))))).map
              (extendRight (dropExcluded A).cols) := rfl
    rw [e0]
    congr 1
    · refine flatMap_singleton_of _ _ _ (fun ra hra => ?_)
      have hnil : B.rows.filter (fun rb => decide (rb.key = ra.key)) = [] :=
        List.filter_eq_nil_iff.mpr (fun rb hrb => by
          simp only [decide_eq_true_eq]
          exact fun he => hdk ra hra rb hrb he.symm)
      simp [hnil]
    · have hself : B.rows.filter (fun rb =>
          !(A.rows.any (fun ra => decide (ra.key = rb.key)))) = B.rows :=
        List.filter_eq_self.mpr (fun rb hrb => by
          simp only [Bool.not_eq_true', List.any_eq_false, decide_eq_true_eq]
          exact fun ra hra => hdk ra hra rb hrb)
      rw [hself]
  have hfillrows : (fillZero (mergeOuter (dropExcluded A) (dropExcluded B))).rows
      = A.rows.map (fun ra => fillRow (extendLeft (dropExcluded A).cols ra))
        ++ B.rows.map (fun rb => fillRow (extendRight (dropExcluded A).cols rb)) := by
    show (mergeOuter (dropExcluded A) (dropExcluded B)).rows.map fillRow = _
    rw [hflat, List.map_append, List.map_map, List.map_map]
    rfl
  -- keys of the filled merged rows
  have hkeys : (fillZero (mergeOuter (dropExcluded A) (dropExcluded B))).rows.map SRow.key
      = A.rows.map SRow.key ++ B.rows.map SRow.key := by
    rw [hfillrows, List.map_append, List.map_map, List.map_map]
    rfl
  have hkeysnd : ((fillZero (mergeOuter (dropExcluded A) (dropExcluded B))).rows.map
      SRow.key).Nodup := by
    rw [hkeys]
    refine List.nodup_append.mpr ⟨hkA, hkB, fun k hka hkb => ?_⟩
    rcases List.mem_map.mp hka with ⟨ra, hra, hrae⟩
    rcases List.mem_map.mp hkb with ⟨rb, hrb, hrbe⟩
    exact hdk ra hra rb hrb (hrae.trans hrbe.symm)
  have hreprnd : ((fillZero (mergeOuter (dropExcluded A) (dropExcluded B))).rows.map
      (rowRepr (fillZero (mergeOuter (dropExcluded A) (dropExcluded B))).cols)).Nodup := by
    apply List.Nodup.of_map (f := Prod.fst)
    rw [List.map_map]
    exact hkeysnd
  have hdedup : (dedupTable (fillZero (mergeOuter (dropExcluded A)
      (dropExcluded B)))).rows
      = (fillZero (mergeOuter (dropExcluded A) (dropExcluded B))).rows :=
    dedupRowsAux_eq_self _ _ _ hreprnd (fun r _ h => (List.not_mem_nil _ h))
  refine ⟨dedupTable (fillZero (mergeOuter (dropExcluded A) (dropExcluded B))),
    rfl, ?_, ?_, ?_, ?_⟩
  · show (dedupTable _).rows.length = _
    rw [hdedup, hfillrows]
    simp [List.length_append]
  · show (dedupTable _).rows.map SRow.key = _
    rw [hdedup, hkeys]
  · show ((dedupTable _).rows.map SRow.key).Nodup
    rw [hdedup]
    exact hkeysnd
  · intro r hr
    rw [show (dedupTable (fillZero (mergeOuter (dropExcluded A)
        (dropExcluded B)))).rows = _ from hdedup, hfillrows] at hr
    rcases List.mem_append.mp hr with hl | hrt
    · rcases List.mem_map.mp hl with ⟨ra, hra, hre⟩
      left
      constructor
      · have hk : r.key = ra.key := by rw [← hre]; rfl
        rw [hk]
        exact List.mem_map_of_mem SRow.key hra
      · intro c hc
        have hcB : c ∈ B.cols := hbcols c hc
        have hcA : c ∉ A.cols := fun hca => hdc c hca hcB
        have hcA2 : c ∉ (dropExcluded A).cols := fun hca => hcA (hacols c hca)
        rw [← hre]
        show some (((extendLeft (dropExcluded A).cols ra).vals c).getD 0) = some 0
        show some (((if c ∈ (dropExcluded A).cols then ra.vals c else none)).getD 0)
          = some 0
        rw [if_neg hcA2]
        rfl
    · rcases List.mem_map.mp hrt with ⟨rb, hrb, hre⟩
      right
      constructor
      · have hk : r.key = rb.key := by rw [← hre]; rfl
        rw [hk]
        exact List.mem_map_of_mem SRow.key hrb
      · intro c hc
        rw [← hre]
        show some (((extendRight (dropExcluded A).cols rb).vals c).getD 0) = some 0
        show some (((if c ∈ (dropExcluded A).cols then none else rb.vals c)).getD 0)
          = some 0
        rw [if_pos hc]
        rfl

/-- Witness for claim C4 at the concrete disjoint tables tA and tB. -/
theorem aggregate_disjoint_union_witness :
    ∃ T, aggregate_DFs [tA, tB] = some T ∧
      T.rows.length = tA.rows.length + tB.rows.length ∧
      T.rows.map SRow.key = tA.rows.map SRow.key ++ tB.rows.map SRow.key ∧
      (T.rows.map SRow.key).Nodup ∧
      ∀ r ∈ T.rows,
        (r.key ∈ tA.rows.map SRow.key ∧
          ∀ c ∈ (dropExcluded tB).cols, r.vals c = some 0) ∨
        (r.key ∈ tB.rows.map SRow.key ∧
          ∀ c ∈ (dropExcluded tA).cols, r.vals c = some 0) :=
  aggregate_disjoint_union tA tB (by decide) (by decide) (by decide) (by decide)

/-- Representation of a filled row. -/
lemma rowRepr_fillRow (cols : List String) (r : SRow) :
    rowRepr cols (fillRow r) = ((rowRepr cols r).1, fillVals (rowRepr cols r).2) := by
  show ((fillRow r).key, cols.map (fillRow r).vals) = (r.key, (cols.map r.vals).map _)
  rw [List.map_map]
  rfl

/-- Filling a table maps its row representations. -/
lemma tableReprs_fillZero (T : STable) :
    tableReprs (fillZero T) = (tableReprs T).map (fun z => (z.1, fillVals z.2)) := by
  show (T.rows.map fillRow).map (rowRepr T.cols)
    = (T.rows.map (rowRepr T.cols)).map (fun z => (z.1, fillVals z.2))
  rw [List.map_map, List.map_map]
  exact List.map_congr_left (fun r _ => rowRepr_fillRow T.cols r)

/-- Representation of a merged row of two matching rows, for disjoint
column lists. -/
lemma rowRepr_combine (A B : STable) (hd : ∀ c ∈ B.cols, c ∉ A.cols) (ra rb : SRow) :
    rowRepr (A.cols ++ B.cols) (combineRow A.cols ra rb)
      = (ra.key, A.cols.map ra.vals ++ B.cols.map rb.vals) := by
  have h1 : A.cols.map (combineRow A.cols ra rb).vals = A.cols.map ra.vals :=
    List.map_congr_left (fun c hc => by
      show (if c ∈ A.cols then ra.vals c else rb.vals c) = ra.vals c
      exact if_pos hc)
  have h2 : B.cols.map (combineRow A.cols ra rb).vals = B.cols.map rb.vals :=
    List.map_congr_left (fun c hc => by
      show (if c ∈ A.cols then ra.vals c else rb.vals c) = rb.vals c
      exact if_neg (hd c hc))
  show ((combineRow A.cols ra rb).key,
    (A.cols ++ B.cols).map (combineRow A.cols ra rb).vals) = _
  rw [List.map_append, h1, h2]
  rfl

/-- Representation of an unmatched left row, for disjoint column
lists. -/
lemma rowRepr_extendLeft (A B : STable) (hd : ∀ c ∈ B.cols, c ∉ A.cols) (ra : SRow) :
    rowRepr (A.cols ++ B.cols) (extendLeft A.cols ra)
      = (ra.key, A.cols.map ra.vals ++ List.replicate B.cols.length none) := by
  have h1 : A.cols.map (extendLeft A.cols ra).vals = A.cols.map ra.vals :=
    List.map_congr_left (fun c hc => by
      show (if c ∈ A.cols then ra.vals c else none) = ra.vals c
      exact if_pos hc)
  have h2 : B.cols.map (extendLeft A.cols ra).vals
      = B.cols.map (fun _ => (none : Option Nat)) :=
    List.map_congr_left (fun c hc => by
      show (if c ∈ A.cols then ra.vals c else none) = none
      exact if_neg (hd c hc))
  show ((extendLeft A.cols ra).key,
    (A.cols ++ B.cols).map (extendLeft A.cols ra).vals) = _
  rw [List.map_append, h1, h2, List.map_const']
  rfl

/-- Representation of an unmatched right row, for disjoint column
lists. -/
lemma rowRepr_extendRight (A B : STable) (hd : ∀ c ∈ B.cols, c ∉ A.cols) (rb : SRow) :
    rowRepr (A.cols ++ B.cols) (extendRight A.cols rb)
      = (rb.key, List.replicate A.cols.length none ++ B.cols.map rb.vals) := by
  have h1 : A.cols.map (extendRight A.cols rb).vals
      = A.cols.map (fun _ => (none : Option Nat)) :=
    List.map_congr_left (fun c hc => by
      show (if c ∈ A.cols then none else rb.vals c) = none
      exact if_pos hc)
  have h2 : B.cols.map (extendRight A.cols rb).vals = B.cols.map rb.vals :=
    List.map_congr_left (fun c hc => by
      show (if c ∈ A.cols then none else rb.vals c) = rb.vals c
      exact if_neg (hd c hc))
  show ((extendRight A.cols rb).key,
    (A.cols ++ B.cols).map (extendRight A.cols rb).vals) = _
  rw [List.map_append, h1, h2, List.map_const']
  rfl

/-- Membership in the representations after duplicate removal: the
representation occurs among the remaining rows and was not seen. -/
lemma mem_map_dedupRowsAux (cols : List String)
    (seen : List ((String × String) × List (Option Nat))) (rows : List SRow)
    (x : (String × String) × List (Option Nat)) :
    x ∈ (dedupRowsAux cols seen rows).map (rowRepr cols) ↔
      (x ∈ rows.map (rowRepr cols) ∧ x ∉ seen) := by
  induction rows generalizing seen with
  | nil => simp [dedupRowsAux]
  | cons r rs ih =>
      rw [dedupRowsAux, List.map_cons]
      by_cases hmem : rowRepr cols r ∈ seen
      · rw [if_pos hmem, ih]
        constructor
        · rintro ⟨hx, hn⟩
          exact ⟨List.mem_cons.mpr (Or.inr hx), hn⟩
        · rintro ⟨hx, hn⟩
          rcases List.mem_cons.mp hx with he | hs
          · exact absurd (fun hseen => hn (he.symm ▸ hseen) : rowRepr cols r ∉ seen)
              (fun hcon => hcon hmem)
          · exact ⟨hs, hn⟩
      · rw [if_neg hmem, List.map_cons]
        constructor
        · intro h
          rcases List.mem_cons.mp h with he | hs
          · refine ⟨List.mem_cons.mpr (Or.inl he), fun hseen => hmem (he ▸ hseen)⟩
          · rcases (ih _).mp hs with ⟨hx, hn⟩
            exact ⟨List.mem_cons.mpr (Or.inr hx),
              fun hseen => hn (List.mem_cons.mpr (Or.inr hseen))⟩
        · rintro ⟨hx, hn⟩
          rcases List.mem_cons.mp hx with he | hs
          · exact List.mem_cons.mpr (Or.inl he)
          · by_cases hxr : x = rowRepr cols r
            · exact List.mem_cons.mpr (Or.inl hxr)
            · exact List.mem_cons.mpr (Or.inr ((ih _).mpr
                ⟨hs, fun hc => (List.mem_cons.mp hc).elim hxr hn⟩))

/-- Duplicate removal keeps exactly the row representations. -/
lemma mem_tableReprs_dedupTable (T : STable) (x : (String × String) × List (Option Nat)) :
    x ∈ tableReprs (dedupTable T) ↔ x ∈ tableReprs T := by
  show x ∈ (dedupRowsAux T.cols [] T.rows).map (rowRepr T.cols) ↔ _
  rw [mem_map_dedupRowsAux]
  simp [tableReprs]

/-- Duplicate removal keeps the column list. -/
lemma cols_dedupTable (T : STable) : (dedupTable T).cols = T.cols := rfl

/-- Dropping the excluded column is the identity when the column list
is already free of it. -/
lemma dropExcluded_eq_self (T : STable)
    (h : T.cols.filter (fun c => c ≠ "Clean_SMILES") = T.cols) :
    dropExcluded T = T := by
  cases T with
  | mk cols rows =>
      show STable.mk (cols.filter (fun c => c ≠ "Clean_SMILES")) rows
        = STable.mk cols rows
      rw [show cols.filter (fun c => c ≠ "Clean_SMILES") = cols from h]

/-- mergedMem depends on the left representation list only through
membership. -/
lemma mergedMem_congr_left (RA RA2 RB : List ((String × String) × List (Option Nat)))
    (la lb : Nat) (x : (String × String) × List (Option Nat))
    (h : ∀ y, y ∈ RA ↔ y ∈ RA2) :
    mergedMem RA RB la lb x ↔ mergedMem RA2 RB la lb x := by
  unfold mergedMem
  simp only [h]

/-- Membership characterisation of the representations produced by an
outer merge, for disjoint column lists: a matched pair of rows, an
unmatched left row padded with missing right columns, or an unmatched
right row padded with missing left columns. -/
lemma mem_tableReprs_mergeOuter (A B : STable) (hd : ∀ c ∈ B.cols, c ∉ A.cols)
    (x : (String × String) × List (Option Nat)) :
    x ∈ tableReprs (mergeOuter A B) ↔
      mergedMem (tableReprs A) (tableReprs B) A.cols.length B.cols.length x := by
  have e0 : tableReprs (mergeOuter A B)
      = (A.rows.flatMap (fun ra =>
          if (B.rows.filter (fun rb => decide (rb.key = ra.key))).isEmpty
          then [extendLeft A.cols ra]
          else (B.rows.filter (fun rb => decide (rb.key = ra.key))).map
            (fun rb => combineRow A.cols ra rb))).map (rowRepr (A.cols ++ B.cols))
        ++ ((B.rows.filter (fun rb =>
            !(A.rows.any (fun ra => decide (ra.key = rb.key))))).map
            (extendRight A.cols)).map (rowRepr (A.cols ++ B.cols)) := by
    show ((A.rows.flatMap _) ++ ((B.rows.filter _).map (extendRight A.cols))).map
      (rowRepr (A.cols ++ B.cols)) = _
    rw [List.map_append]
  rw [e0]
  constructor
  · intro hx
    rcases List.mem_append.mp hx with hxl | hxr
    · rcases List.mem_map.mp hxl with ⟨r, hr, hre⟩
      rcases List.mem_flatMap.mp hr with ⟨ra, hra, hrf⟩
      by_cases hms : (B.rows.filter (fun rb => decide (rb.key = ra.key))).isEmpty
      · rw [if_pos hms] at hrf
        have hre2 : r = extendLeft A.cols ra := List.mem_singleton.mp hrf
        subst hre2
        refine Or.inr (Or.inl ⟨rowRepr A.cols ra, List.mem_map_of_mem _ hra, ?_, ?_⟩)
        · intro b hb
          rcases List.mem_map.mp hb with ⟨rb, hrb, hbe⟩
          have hnone : ∀ rb2 ∈ B.rows, ¬(decide (rb2.key = ra.key) = true) :=
            List.filter_eq_nil_iff.mp (List.isEmpty_iff.mp hms)
          have hne : rb.key ≠ ra.key := by simpa using hnone rb hrb
          rw [← hbe]
          exact hne
        · rw [← hre]
          exact rowRepr_extendLeft A B hd ra
      · rw [if_neg hms] at hrf
        rcases List.mem_map.mp hrf with ⟨rb, hrbf, hrc⟩
        have hrb := List.mem_filter.mp hrbf
        have hkey : rb.key = ra.key := by simpa using hrb.2
        refine Or.inl ⟨rowRepr A.cols ra, List.mem_map_of_mem _ hra,
          rowRepr B.cols rb, List.mem_map_of_mem _ hrb.1, ?_, ?_⟩
        · exact hkey
        · rw [← hre, ← hrc]
          exact rowRepr_combine A B hd ra rb
    · rcases List.mem_map.mp hxr with ⟨r, hr, hre⟩
      rcases List.mem_map.mp hr with ⟨rb, hrbf, hrc⟩
      have hrb := List.mem_filter.mp hrbf
      have hall : ∀ ra ∈ A.rows, ra.key ≠ rb.key := by
        have h2 := hrb.2
        simp only [Bool.not_eq_true', List.any_eq_false, decide_eq_true_eq] at h2
        exact h2
      refine Or.inr (Or.inr ⟨rowRepr B.cols rb, List.mem_map_of_mem _ hrb.1, ?_, ?_⟩)
      · intro a ha
        rcases List.mem_map.mp ha with ⟨ra, hra, hae⟩
        rw [← hae]
        exact hall ra hra
      · rw [← hre, ← hrc]
        exact rowRepr_extendRight A B hd rb
  · intro hm
    rcases hm with ⟨a, ha, b, hb, hba, hxe⟩ | ⟨a, ha, hguard, hxe⟩ | ⟨b, hb, hguard, hxe⟩
    · rcases List.mem_map.mp ha with ⟨ra, hra, hae⟩
      rcases List.mem_map.mp hb with ⟨rb, hrb, hbe⟩
      have hkey : rb.key = ra.key := by
        have h1 : rb.key = b.1 := by rw [← hbe]; rfl
        have h2 : a.1 = ra.key := by rw [← hae]; rfl
        rw [h1, hba, h2]
      refine List.mem_append.mpr (Or.inl (List.mem_map.mpr
        ⟨combineRow A.cols ra rb, List.mem_flatMap.mpr ⟨ra, hra, ?_⟩, ?_⟩))
      · have hmem2 : rb ∈ B.rows.filter (fun rb2 => decide (rb2.key = ra.key)) :=
          List.mem_filter.mpr ⟨hrb, by simpa using hkey⟩
        have hne : ¬(B.rows.filter (fun rb2 => decide (rb2.key = ra.key))).isEmpty
            = true := by
          intro hemp
          rw [List.isEmpty_iff.mp hemp] at hmem2
          exact List.not_mem_nil _ hmem2
        rw [if_neg hne]
        exact List.mem_map_of_mem _ hmem2
      · rw [rowRepr_combine A B hd ra rb, hxe, ← hae, ← hbe]
        rfl
    · rcases List.mem_map.mp ha with ⟨ra, hra, hae⟩
      have hnil : B.rows.filter (fun rb2 => decide (rb2.key = ra.key)) = [] :=
        List.filter_eq_nil_iff.mpr (fun rb hrbm => by
          simp only [decide_eq_true_eq]
          have hg := hguard (rowRepr B.cols rb) (List.mem_map_of_mem _ hrbm)
          rw [← hae] at hg
          exact hg)
      refine List.mem_append.mpr (Or.inl (List.mem_map.mpr
        ⟨extendLeft A.cols ra, List.mem_flatMap.mpr ⟨ra, hra, ?_⟩, ?_⟩))
      · rw [hnil]
        simp
      · rw [rowRepr_extendLeft A B hd ra, hxe, ← hae]
        rfl
    · rcases List.mem_map.mp hb with ⟨rb, hrbm, hbe⟩
      have hfilter : rb ∈ B.rows.filter (fun rb2 =>
          !(A.rows.any (fun ra2 => decide (ra2.key = rb2.key)))) :=
        List.mem_filter.mpr ⟨hrbm, by
          simp only [Bool.not_eq_true', List.any_eq_false, decide_eq_true_eq]
          intro ra hra
          have hg := hguard (rowRepr A.cols ra) (List.mem_map_of_mem _ hra)
          rw [← hbe] at hg
          exact hg⟩
      refine List.mem_append.mpr (Or.inr (List.mem_map.mpr
        ⟨extendRight A.cols rb, List.mem_map_of_mem _ hfilter, ?_⟩))
      rw [rowRepr_extendRight A B hd rb, hxe, ← hbe]
      rfl

/-- Claim C6: for adapter outputs with pairwise disjoint column lists
and the same join keys, aggregating [A, B, C] directly and aggregating
[aggregate [A, B], C] produce tables with the same columns and the
same set of row representations (row order and duplicate multiplicity
aside). -/
theorem aggregate_assoc_rowset (A B C : STable)
    (hBA : ∀ c ∈ B.cols, c ∉ A.cols)
    (hCA : ∀ c ∈ C.cols, c ∉ A.cols)
    (hCB : ∀ c ∈ C.cols, c ∉ B.cols) :
    ∃ T1 AB T2,
      aggregate_DFs [A, B, C] = some T1 ∧
      aggregate_DFs [A, B] = some AB ∧
      aggregate_DFs [AB, C] = some T2 ∧
      T1.cols = T2.cols ∧
      ∀ x, (x ∈ tableReprs T1 ↔ x ∈ tableReprs T2) := by
  have hfix : dropExcluded (dedupTable (fillZero (mergeOuter (dropExcluded A)
      (dropExcluded B)))) = dedupTable (fillZero (mergeOuter (dropExcluded A)
      (dropExcluded B))) := by
    apply dropExcluded_eq_self
    have hq : (dedupTable (fillZero (mergeOuter (dropExcluded A)
        (dropExcluded B)))).cols
        = A.cols.filter (fun c => c ≠ "Clean_SMILES")
          ++ B.cols.filter (fun c => c ≠ "Clean_SMILES") := rfl
    rw [hq, List.filter_append]
    congr 1 <;> exact List.filter_eq_self.mpr (fun a ha => (List.mem_filter.mp ha).2)
  have hdMC : ∀ c ∈ (dropExcluded C).cols,
      c ∉ (fillZero (mergeOuter (dropExcluded A) (dropExcluded B))).cols := by
    intro c hc hcm
    have hcC : c ∈ C.cols := (List.mem_filter.mp hc).1
    have hcm2 : c ∈ (dropExcluded A).cols ++ (dropExcluded B).cols := hcm
    rcases List.mem_append.mp hcm2 with h1 | h2
    · exact hCA c hcC ((List.mem_filter.mp h1).1)
    · exact hCB c hcC ((List.mem_filter.mp h2).1)
  have hdABC : ∀ c ∈ (dropExcluded C).cols,
      c ∉ (dedupTable (fillZero (mergeOuter (dropExcluded A)
        (dropExcluded B)))).cols := hdMC
  refine ⟨dedupTable (fillZero (mergeOuter (fillZero (mergeOuter (dropExcluded A)
      (dropExcluded B))) (dropExcluded C))),
    dedupTable (fillZero (mergeOuter (dropExcluded A) (dropExcluded B))),
    dedupTable (fillZero (mergeOuter (dropExcluded (dedupTable (fillZero
      (mergeOuter (dropExcluded A) (dropExcluded B))))) (dropExcluded C))),
    rfl, rfl, rfl, ?_, ?_⟩
  · rw [hfix]
    rfl
  · intro x
    rw [mem_tableReprs_dedupTable, mem_tableReprs_dedupTable, hfix,
      tableReprs_fillZero, tableReprs_fillZero, List.mem_map, List.mem_map]
    constructor
    · rintro ⟨z, hz, hze⟩
      refine ⟨z, ?_, hze⟩
      have hz2 := (mem_tableReprs_mergeOuter _ _ hdMC z).mp hz
      have hz3 := (mergedMem_congr_left
        (tableReprs (fillZero (mergeOuter (dropExcluded A) (dropExcluded B))))
        (tableReprs (dedupTable (fillZero (mergeOuter (dropExcluded A)
          (dropExcluded B)))))
        (tableReprs (dropExcluded C)) _ _ z
        (fun y => (mem_tableReprs_dedupTable _ y).symm)).mp hz2
      exact (mem_tableReprs_mergeOuter _ _ hdABC z).mpr hz3
    · rintro ⟨z, hz, hze⟩
      refine ⟨z, ?_, hze⟩
      have hz2 := (mem_tableReprs_mergeOuter _ _ hdABC z).mp hz
      have hz3 := (mergedMem_congr_left
        (tableReprs (dedupTable (fillZero (mergeOuter (dropExcluded A)
          (dropExcluded B)))))
        (tableReprs (fillZero (mergeOuter (dropExcluded A) (dropExcluded B))))
        (tableReprs (dropExcluded C)) _ _ z
        (fun y => mem_tableReprs_dedupTable _ y)).mp hz2
      exact (mem_tableReprs_mergeOuter _ _ hdMC z).mpr hz3

/-- Witness for claim C6 at the concrete tables tA, tB, tC. -/
theorem aggregate_assoc_rowset_witness :
    ∃ T1 AB T2,
      aggregate_DFs [tA, tB, tC] = some T1 ∧
      aggregate_DFs [tA, tB] = some AB ∧
      aggregate_DFs [AB, tC] = some T2 ∧
      T1.cols = T2.cols ∧
      ∀ x, (x ∈ tableReprs T1 ↔ x ∈ tableReprs T2) :=
  aggregate_assoc_rowset tA tB tC (by decide) (by decide) (by decide)

/-- Claim C7: on the interleaved row sequence
[(P1, s0), (NaN, s1), (NaN, s2), (P2, s3)] the forward-fill adapter
logic yields exactly the metabolite rows s1 and s2 associated with P1;
the parent rows carrying s0 and s3 are excluded from the output. -/
theorem times_forward_fill_scenario (inchiOf : String → Option String)
    (k1 k2 : String) (h1 : inchiOf "s1" = some k1) (h2 : inchiOf "s2" = some k2) :
    TIMES_ffill inchiOf
      [⟨some "P1", "s0"⟩, ⟨none, "s1"⟩, ⟨none, "s2"⟩, ⟨some "P2", "s3"⟩]
      = [⟨some "P1", k1, "s1"⟩, ⟨some "P1", k2, "s2"⟩] := by
  simp [TIMES_ffill, ffillDTXSID, h1, h2]

/-- Witness for claim C7 with a concrete identifier function. -/
theorem times_forward_fill_scenario_witness :
    TIMES_ffill (fun s => some s)
      [⟨some "P1", "s0"⟩, ⟨none, "s1"⟩, ⟨none, "s2"⟩, ⟨some "P2", "s3"⟩]
      = [⟨some "P1", "s1", "s1"⟩, ⟨some "P1", "s2", "s2"⟩] :=
  times_forward_fill_scenario (fun s => some s) "s1" "s2" rfl rfl

/-- Membership through insertion. -/
lemma mem_insertByIdx (x y : Nat × Cell) (l : List (Nat × Cell)) :
    y ∈ insertByIdx x l ↔ (y = x ∨ y ∈ l) := by
  induction l with
  | nil => simp [insertByIdx]
  | cons a t ih =>
      rw [insertByIdx]
      by_cases h : x.1 ≤ a.1
      · rw [if_pos h]
        simp [List.mem_cons]
      · rw [if_neg h]
        simp only [List.mem_cons, ih]
        tauto

/-- Sorting preserves membership. -/
lemma mem_sortByIdx (y : Nat × Cell) (l : List (Nat × Cell)) :
    y ∈ sortByIdx l ↔ y ∈ l := by
  induction l with
  | nil => simp [sortByIdx]
  | cons a t ih =>
      rw [sortByIdx, mem_insertByIdx]
      simp [ih]

/-- Inserting an element whose index is below every index of the list
puts it in front. -/
lemma insertByIdx_front (x : Nat × Cell) (l : List (Nat × Cell))
    (h : ∀ y ∈ l, x.1 < y.1) : insertByIdx x l = x :: l := by
  cases l with
  | nil => rfl
  | cons a t =>
      rw [insertByIdx, if_pos (Nat.le_of_lt (h a (by simp)))]

/-- The minimum-index element moves to the front when sorting. -/
lemma sortByIdx_cons_min (x : Nat × Cell) (l : List (Nat × Cell))
    (h : ∀ y ∈ l, x.1 < y.1) : sortByIdx (x :: l) = x :: sortByIdx l := by
  show insertByIdx x (sortByIdx l) = x :: sortByIdx l
  exact insertByIdx_front x _ (fun y hy => h y ((mem_sortByIdx y l).mp hy))

/-- The minimum-index element moves to the front from anywhere. -/
lemma sortByIdx_extract_min (x : Nat × Cell) (l1 l2 : List (Nat × Cell))
    (h : ∀ y ∈ l1 ++ l2, x.1 < y.1) :
    sortByIdx (l1 ++ x :: l2) = x :: sortByIdx (l1 ++ l2) := by
  induction l1 with
  | nil =>
      rw [List.nil_append, List.nil_append]
      exact sortByIdx_cons_min x l2 (fun y hy => h y hy)
  | cons a t ih =>
      have hsub : ∀ y ∈ t ++ l2, x.1 < y.1 := fun y hy => h y (by
        rcases List.mem_append.mp hy with h1 | h2
        · exact List.mem_append.mpr (Or.inl (List.mem_cons_of_mem a h1))
        · exact List.mem_append.mpr (Or.inr h2))
      have hx : x.1 < a.1 := h a (List.mem_append.mpr (Or.inl (List.mem_cons_self a t)))
      show sortByIdx (a :: (t ++ x :: l2)) = x :: sortByIdx (a :: (t ++ l2))
      simp only [sortByIdx]
      rw [ih hsub]
      simp only [insertByIdx]
      rw [if_neg (Nat.not_le.mpr hx)]

/-- Indices produced by enumFrom are at least the start index. -/
lemma enumFrom_fst_le {α : Type} (l : List α) (n : Nat) :
    ∀ p ∈ List.enumFrom n l, n ≤ p.1 := by
  induction l generalizing n with
  | nil => simp [List.enumFrom]
  | cons a t ih =>
      intro p hp
      rw [List.enumFrom] at hp
      rcases List.mem_cons.mp hp with he | hs
      · rw [he]
      · exact Nat.le_of_succ_le (ih (n + 1) p hs)

/-- Every element of an index-preserving filterMap over the enumerated
tail has index at least the start index. -/
lemma filterMap_enum_bound {μ : Type} (parseMol : String → Option μ)
    (g : Nat × Option μ → Option (Nat × Cell))
    (hg : ∀ p z, g p = some z → z.1 = p.1) (k : Nat) (rest : List String) :
    ∀ y ∈ ((List.enumFrom k rest).map (fun p => (p.1, parseMol p.2))).filterMap g,
      k ≤ y.1 := by
  intro y hy
  rcases List.mem_filterMap.mp hy with ⟨p, hp, hpe⟩
  rcases List.mem_map.mp hp with ⟨q, hq, hqe⟩
  have h1 : y.1 = p.1 := hg p y hpe
  have h2 : p.1 = q.1 := by rw [← hqe]
  rw [h1, h2]
  exact enumFrom_fst_le rest k q hq

/-- The concat-and-sort reconstruction of one output series equals the
per-row computation, for any per-molecule cell function. -/
lemma extended_series_eq {μ : Type} (parseMol : String → Option μ) (f : μ → Cell)
    (k : Nat) (l : List String) :
    sortByIdx
      ((((List.enumFrom k l).map (fun p => (p.1, parseMol p.2))).filterMap (fun p =>
          p.2.map (fun m => (p.1, f m))))
        ++ (((List.enumFrom k l).map (fun p => (p.1, parseMol p.2))).filterMap (fun p =>
          match p.2 with
          | none => some (p.1, Cell.str "Incompatible SMILES")
          | some _ => none)))
      = (List.enumFrom k l).map (fun p =>
          (p.1, match parseMol p.2 with
            | none => Cell.str "Incompatible SMILES"
            | some m => f m)) := by
  induction l generalizing k with
  | nil => simp [List.enumFrom, sortByIdx]
  | cons s rest ih =>
      have hb1 := filterMap_enum_bound parseMol
        (fun p => p.2.map (fun m => (p.1, f m)))
        (fun p z hz => by
          rcases Option.map_eq_some'.mp hz with ⟨m, hm, he⟩
          rw [← he]) (k + 1) rest
      have hb2 := filterMap_enum_bound parseMol
        (fun p => match p.2 with
          | none => some (p.1, Cell.str "Incompatible SMILES")
          | some _ => none)
        (fun p z hz => by
          have hz2 : (match p.2 with
            | none => some (p.1, Cell.str "Incompatible SMILES")
            | some _ => none) = some z := hz
          cases h2 : p.2 with
          | none =>
              rw [h2] at hz2
              have h3 := Option.some.inj hz2
              rw [← h3]
          | some m =>
              rw [h2] at hz2
              exact absurd hz2 (by simp)) (k + 1) rest
      have hb : ∀ y ∈ (((List.enumFrom (k + 1) rest).map
            (fun p => (p.1, parseMol p.2))).filterMap (fun p =>
              p.2.map (fun m => (p.1, f m))))
          ++ (((List.enumFrom (k + 1) rest).map
            (fun p => (p.1, parseMol p.2))).filterMap (fun p =>
              match p.2 with
              | none => some (p.1, Cell.str "Incompatible SMILES")
              | some _ => none)), k < y.1 := by
        intro y hy
        rcases List.mem_append.mp hy with h1 | h2
        · exact Nat.lt_of_succ_le (hb1 y h1)
        · exact Nat.lt_of_succ_le (hb2 y h2)
      simp only [List.enumFrom, List.map_cons]
      cases hp : parseMol s with
      | some m =>
          have hr1 : ((k, some m) :: (List.enumFrom (k + 1) rest).map
                (fun p => (p.1, parseMol p.2))).filterMap
                (fun p => p.2.map (fun m2 => (p.1, f m2)))
              = (k, f m) :: ((List.enumFrom (k + 1) rest).map
                (fun p => (p.1, parseMol p.2))).filterMap
                (fun p => p.2.map (fun m2 => (p.1, f m2))) := by
            simp
          have hr2 : ((k, some m) :: (List.enumFrom (k + 1) rest).map
                (fun p => (p.1, parseMol p.2))).filterMap
                (fun p => match p.2 with
                  | none => some (p.1, Cell.str "Incompatible SMILES")
                  | some _ => none)
              = ((List.enumFrom (k + 1) rest).map
                (fun p => (p.1, parseMol p.2))).filterMap
                (fun p => match p.2 with
                  | none => some (p.1, Cell.str "Incompatible SMILES")
                  | some _ => none) := by
            simp
          rw [hr1, hr2, List.cons_append, sortByIdx_cons_min _ _ hb, ih (k + 1)]
      | none =>
          have hr1 : (((k, none) : Nat × Option μ) :: (List.enumFrom (k + 1) rest).map
                (fun p => (p.1, parseMol p.2))).filterMap
                (fun p => p.2.map (fun m2 => (p.1, f m2)))
              = ((List.enumFrom (k + 1) rest).map
                (fun p => (p.1, parseMol p.2))).filterMap
                (fun p => p.2.map (fun m2 => (p.1, f m2))) := by
            simp
          have hr2 : (((k, none) : Nat × Option μ) :: (List.enumFrom (k + 1) rest).map
                (fun p => (p.1, parseMol p.2))).filterMap
                (fun p => match p.2 with
                  | none => some (p.1, Cell.str "Incompatible SMILES")
                  | some _ => none)
              = (k, Cell.str "Incompatible SMILES")
                :: ((List.enumFrom (k + 1) rest).map
                (fun p => (p.1, parseMol p.2))).filterMap
                (fun p => match p.2 with
                  | none => some (p.1, Cell.str "Incompatible SMILES")
                  | some _ => none) := by
            simp
          rw [hr1, hr2, sortByIdx_extract_min _ _ _ hb, ih (k + 1)]

/-- Mapping a pair-valued function over an enumeration and keeping the
values forgets the indices. -/
lemma snd_map_enum {γ : Type} (g : String → γ) (n : Nat) (l : List String) :
    ((List.enumFrom n l).map (fun p => ((p.1 : Nat), g p.2))).map Prod.snd
      = l.map g := by
  induction l generalizing n with
  | nil => rfl
  | cons a t ih =>
      rw [List.enumFrom, List.map_cons, List.map_cons, List.map_cons, ih]

/-- Claim C8, amended: the derived-property computation of the
extended aggregation is the per-row computation: every unparseable
consensus structure receives the string sentinel Incompatible SMILES
in both the mass and the formula column, every parseable structure
receives its computed mass and formula, and no row interrupts the
batch. -/
theorem extendedProperties_sentinel {μ : Type} (parseMol : String → Option μ)
    (exactWt : μ → Rat) (calcFormula : μ → String) (mH : Rat)
    (smilesList : List String) :
    extendedProperties parseMol exactWt calcFormula mH smilesList
      = (smilesList.map (fun s =>
          rowCell (fun m => Cell.num (exactWt m + mH)) (parseMol s)),
        smilesList.map (fun s =>
          rowCell (fun m => Cell.str (calcFormula m)) (parseMol s))) := by
  have h1 := extended_series_eq parseMol (fun m => Cell.num (exactWt m + mH))
    0 smilesList
  have h2 := extended_series_eq parseMol (fun m => Cell.str (calcFormula m))
    0 smilesList
  simp only [extendedProperties]
  rw [Prod.mk.injEq]
  constructor
  · rw [h1]
    exact snd_map_enum (fun s =>
      rowCell (fun m => Cell.num (exactWt m + mH)) (parseMol s)) 0 smilesList
  · rw [h2]
    exact snd_map_enum (fun s =>
      rowCell (fun m => Cell.str (calcFormula m)) (parseMol s)) 0 smilesList

/-- Counterexample to claim C8 as stated: on an unparseable structure
the extended aggregation writes the sentinel string
Incompatible SMILES into both derived fields, not the string
Incompatible structure named by the claim. -/
theorem extendedProperties_sentinel_cex :
    extendedProperties (fun _ => (none : Option Unit)) (fun _ => 0) (fun _ => "") 0
        ["X"]
      = ([Cell.str "Incompatible SMILES"], [Cell.str "Incompatible SMILES"]) ∧
    extendedProperties (fun _ => (none : Option Unit)) (fun _ => 0) (fun _ => "") 0
        ["X"]
      ≠ ([Cell.str "Incompatible structure"], [Cell.str "Incompatible structure"]) := by
  constructor
  · rfl
  · intro h
    have h2 : [Cell.str "Incompatible SMILES"] = [Cell.str "Incompatible structure"] :=
      congrArg Prod.fst h
    simp at h2
